import Mathlib

/-!
Shallow embedding of the conversion-state container in
`src/src/converter/segments.h` (namespace `mozc`): the `Segment::Candidate`
value object, the `Segment` entity with its signed-index candidate access,
and the `Segments` container with its derived history/conversion partition
and its `Range` views.

Modelling conventions:
* C++ byte strings (`std::string`, `absl::string_view`) become `List Char`
  (`Str`); sizes are list lengths and substring views are `List.drop`/`take`.
* C++ `int` and iterator `difference_type` become `Int`; `size_t` becomes
  `Nat`.  Comparisons such as `i < candidates_.size()` that convert a
  non-negative signed value to unsigned are modelled with `Int.toNat`.
* `DCHECK`/`CHECK` failures and out-of-range dereferences are modelled with
  `Option` (`none` = the aborting / undefined branch).
* The candidate pool (`pool_`), the debug-only members and the cached
  lattice are allocation or debug machinery with no observable content for
  the properties below and are not part of the state.
-/

namespace Mozc

/-- A byte string (mozc `std::string` / `absl::string_view` content). -/
abbrev Str := List Char

/-- Embeds `Segment::SegmentType`, segments.h lines 67-74. -/
inductive SegmentType where
  | FREE
  | FIXED_BOUNDARY
  | FIXED_VALUE
  | SUBMITTED
  | HISTORY
  deriving DecidableEq

/-- Embeds `Segment::Candidate::Category`, segments.h lines 162-166. -/
inductive CandidateCategory where
  | DEFAULT_CATEGORY
  | SYMBOL
  | OTHER
  deriving DecidableEq

/-- Embeds `Segment::Candidate::Command`, segments.h lines 134-140. -/
inductive CandidateCommand where
  | DEFAULT_COMMAND
  | ENABLE_INCOGNITO_MODE
  | DISABLE_INCOGNITO_MODE
  | ENABLE_PRESENTATION_MODE
  | DISABLE_PRESENTATION_MODE
  deriving DecidableEq

/-- Embeds `Segment::Candidate`, segments.h lines 76-325, with the C++ member
initializers as field defaults.  `attributes`, `source_info` and `style` are
kept as plain naturals (bitsets / externally defined enum); the debug-only
`log` member is compiled out in release builds and is not modelled.  The
source field after `consumed_key_size` is named like the C++ keyword for a
front part of a word, hence the `_str` suffix here (`prefix_str`). -/
structure Candidate where
  key : Str := []
  value : Str := []
  content_key : Str := []
  content_value : Str := []
  consumed_key_size : Nat := 0
  prefix_str : Str := []
  suffix : Str := []
  description : Str := []
  a11y_description : Str := []
  usage_id : Int := 0
  usage_title : Str := []
  usage_description : Str := []
  cost : Int := 0
  wcost : Int := 0
  structure_cost : Int := 0
  lid : Nat := 0
  rid : Nat := 0
  attributes : Nat := 0
  source_info : Nat := 0
  category : CandidateCategory := .DEFAULT_CATEGORY
  style : Nat := 0
  command : CandidateCommand := .DEFAULT_COMMAND
  inner_segment_boundary : List Nat := []
  cost_before_rescoring : Int := 0
  deriving DecidableEq

/-- A default-constructed `Segment::Candidate` (all member initializers). -/
def Candidate.init : Candidate := {}

/-- Modelled from the spec: the checking overload
`Segment::Candidate::EncodeLengths(key_len, value_len, content_key_len,
content_value_len, uint32_t *result)` is declared at segments.h lines
239-241 but defined in `converter/segments.cc`, which is not part of the
repository files here.  Spec section 6: byte 3 (MSB) = key_len, byte 2 =
value_len, byte 1 = content_key_len, byte 0 = content_value_len; encoding
fails when any length exceeds 255.  `none` models the `false` return. -/
def Candidate.EncodeLengths (key_len value_len content_key_len
    content_value_len : Nat) : Option Nat :=
  if key_len ≤ 255 ∧ value_len ≤ 255 ∧ content_key_len ≤ 255 ∧
      content_value_len ≤ 255 then
    some (key_len * 2 ^ 24 + value_len * 2 ^ 16 + content_key_len * 2 ^ 8 +
      content_value_len)
  else
    none

/-- Modelled from the spec: the byte extraction performed by
`InnerSegmentIterator::Next` lives in `converter/segments.cc` (not among
the repository files here); spec section 6 fixes the layout: byte 3 (MSB) =
key_len, byte 2 = value_len, byte 1 = content_key_len, byte 0 =
content_value_len. -/
def decodeLengths (code : Nat) : Nat × Nat × Nat × Nat :=
  (code / 2 ^ 24 % 256, code / 2 ^ 16 % 256, code / 2 ^ 8 % 256, code % 256)

/-- Modelled from the spec:
`Segment::Candidate::PushBackInnerSegmentBoundary` is declared at
segments.h lines 255-257 but defined in `converter/segments.cc` (not among
the repository files here).  Per the declaration comment (lines 253-254)
and spec section 4.1 it appends one packed code to
`inner_segment_boundary`, returns false when one of the four lengths is
longer than 255, and leaves the sequence unchanged on failure. -/
def Candidate.PushBackInnerSegmentBoundary (c : Candidate)
    (key_len value_len content_key_len content_value_len : Nat) :
    Bool × Candidate :=
  match Candidate.EncodeLengths key_len value_len content_key_len
      content_value_len with
  | none => (false, c)
  | some code =>
      (true,
        { c with inner_segment_boundary := c.inner_segment_boundary ++ [code] })

/-- Embeds `Segment::Candidate::functional_key`, segments.h lines 723-728: the view
into `key` starting at byte offset `content_key.size()`, empty when
`key.size() <= content_key.size()`. -/
def Candidate.functional_key (c : Candidate) : Str :=
  if c.key.length ≤ c.content_key.length then []
  else c.key.drop c.content_key.length

/-- Embeds `Segment::Candidate::functional_value`, segments.h lines 730-735. -/
def Candidate.functional_value (c : Candidate) : Str :=
  if c.value.length ≤ c.content_value.length then []
  else c.value.drop c.content_value.length

/-- Embeds `Segment`, segments.h lines 65-428: segment type tag, reading key, the
deque of candidates and the vector of meta candidates.  The deque holds
pooled pointers in C++; here the candidate values themselves are the state
(the pool `pool_` and the debug-only `removed_candidates_for_debug_` carry
no observable content for the properties below). -/
structure Segment where
  segment_type : SegmentType := .FREE
  key : Str := []
  candidates : List Candidate := []
  meta_candidates : List Candidate := []
  deriving DecidableEq

/-- Embeds `Segment::candidates_size`, segments.h line 364. -/
def Segment.candidates_size (s : Segment) : Nat := s.candidates.length

/-- Embeds `Segment::meta_candidates_size`, segments.h line 378. -/
def Segment.meta_candidates_size (s : Segment) : Nat :=
  s.meta_candidates.length

/-- Embeds `Segment::is_valid_index`, segments.h lines 737-743.  The C++ compares
the non-negative quantities `-i - 1` and `i` against unsigned sizes. -/
def Segment.is_valid_index (s : Segment) (i : Int) : Bool :=
  if i < 0 then
    decide ((-i - 1).toNat < s.meta_candidates_size)
  else
    decide (i.toNat < s.candidates_size)

/-- Modelled from the spec: `Segment::meta_candidate(size_t)` is declared at
segments.h line 386 but defined in `converter/segments.cc` (not among the
repository files here).  Per spec sections 3 and 4.2 it returns the i-th
element of the value-stored meta-candidate vector, out-of-range being a
programmer error (`none` here). -/
def Segment.meta_candidate (s : Segment) (i : Nat) : Option Candidate :=
  s.meta_candidates[i]?

/-- The string literal written by `Segment::candidate` (segments.h line
750). -/
def kokasuta : Str := "こかすた〜".toList

/-- Embeds `Segment::candidate(int)`, segments.h lines 745-752.  For `i < 0` it
returns `meta_candidate(-i - 1)`; otherwise it writes the literal
`"こかすた〜"` into the stored candidate (spec section 9 reads this stray
write as landing in the `value` field) and returns that stored candidate.
The result pairs the returned candidate with the post-call segment state;
`none` models the `DCHECK` / out-of-range dereference. -/
def Segment.candidate (s : Segment) (i : Int) :
    Option (Candidate × Segment) :=
  if i < 0 then
    (s.meta_candidate (-i - 1).toNat).map (fun c => (c, s))
  else
    match s.candidates[i.toNat]? with
    | none => none
    | some c =>
        let c2 : Candidate := { c with value := kokasuta }
        some (c2, { s with candidates := s.candidates.set i.toNat c2 })

/-- Embeds `Segment::mutable_candidate(int)`, segments.h lines 754-762: the
candidate the returned pointer addresses (no write happens here). -/
def Segment.mutable_candidate (s : Segment) (i : Int) : Option Candidate :=
  if i < 0 then
    s.meta_candidates[(-i - 1).toNat]?
  else
    s.candidates[i.toNat]?

/-- A history segment: `SegmentType == HISTORY OR SUBMITTED` (segments.h
lines 430-435). -/
def is_history_segment (s : Segment) : Bool :=
  match s.segment_type with
  | .HISTORY => true
  | .SUBMITTED => true
  | _ => false

/-- Embeds `Segments::RevertEntry`, segments.h lines 454-465. -/
structure RevertEntry where
  revert_entry_type : Nat := 0
  id : Nat := 0
  timestamp : Nat := 0
  key : Str := []
  deriving DecidableEq

/-- Embeds `Segments`, segments.h lines 449-720: the ordered list of segments plus
the revert journal and bookkeeping flags.  The segment pool and the cached
lattice are allocation machinery / opaque and are not part of the state. -/
structure Segments where
  max_history_segments_size : Nat := 0
  resized : Bool := false
  segments : List Segment := []
  revert_entries : List RevertEntry := []
  deriving DecidableEq

/-- Embeds `Segments::segments_size`, segments.h line 650. -/
def Segments.segments_size (s : Segments) : Nat := s.segments.length

/-- Modelled from the spec: `Segments::history_segments_size` is declared at
segments.h line 651 but defined in `converter/segments.cc` (not among the
repository files here).  Spec section 4.3: it is computed on demand as the
length of the longest prefix whose segments all have type HISTORY or
SUBMITTED; no separate count is stored. -/
def Segments.history_segments_size (s : Segments) : Nat :=
  (s.segments.takeWhile is_history_segment).length

/-- Embeds `Segments::conversion_segments_size`, segments.h lines 652-654. -/
def Segments.conversion_segments_size (s : Segments) : Nat :=
  s.segments_size - s.history_segments_size

/-- Embeds `Segments::segment`, segments.h line 629 (`none` = out-of-range
dereference). -/
def Segments.segment (s : Segments) (i : Nat) : Option Segment :=
  s.segments[i]?

/-- Embeds `Segments::conversion_segment`, segments.h lines 630-632:
`*segments_[i + history_segments_size()]`. -/
def Segments.conversion_segment (s : Segments) (i : Nat) : Option Segment :=
  s.segments[i + s.history_segments_size]?

/-- Embeds `Segments::history_segment`, segments.h line 633. -/
def Segments.history_segment (s : Segments) (i : Nat) : Option Segment :=
  s.segments[i]?

/-- Modelled from the spec: `Segments::history_key(int size = -1)` is
declared at segments.h lines 677-679 but defined in
`converter/segments.cc` (not among the repository files here).  Spec
section 4.3: it concatenates, in order, the keys of the last
min(size, history_segments_size()) history segments; size = -1 means all of
them. -/
def Segments.history_key (s : Segments) (n : Int) : Str :=
  let h := s.history_segments_size
  let k : Nat := if n = -1 then h else min n.toNat h
  (((s.segments.take h).drop (h - k)).map Segment.key).flatten

/-- Modelled from the spec: `Segments::history_value(int size = -1)`
(segments.h lines 681-683, body in `converter/segments.cc`, not among the
repository files here).  Spec section 4.3: the analogous concatenation of
the values of the first candidate (index 0) of each such segment; a history
segment with no candidates contributes the empty string. -/
def Segments.history_value (s : Segments) (n : Int) : Str :=
  let h := s.history_segments_size
  let k : Nat := if n = -1 then h else min n.toNat h
  (((s.segments.take h).drop (h - k)).map
    (fun seg => ((seg.candidates[0]?).map Candidate.value).getD [])).flatten

/-- Embeds `Segments::Range`, segments.h lines 543-596.  A C++ `Range` is a pair of
random-access iterators into the deque `segments_`; here it is the deque
contents `base` with the begin position `b` and the end position `e`. -/
structure Range (α : Type) where
  base : List α
  b : Nat
  e : Nat
  deriving DecidableEq

/-- Embeds `Range::size`, segments.h line 555 (`difference_type`, signed). -/
def Range.size {α : Type} (r : Range α) : Int := (r.e : Int) - (r.b : Int)

/-- Embeds `Range::empty`, segments.h line 556: `begin_ == end_`. -/
def Range.empty {α : Type} (r : Range α) : Bool := decide (r.b = r.e)

/-- Embeds `Range::operator[]`, segments.h lines 558-562: `CHECK_GE(index, 0)` and
`CHECK_LT(index, size())` abort the process (modelled `none`), otherwise
`*(begin_ + index)`. -/
def Range.get {α : Type} (r : Range α) (index : Int) : Option α :=
  if 0 ≤ index ∧ index < r.size then r.base[r.b + index.toNat]? else none

/-- Embeds `Range::front`, segments.h lines 563-566: `CHECK(!empty())` then
`*begin_`. -/
def Range.front {α : Type} (r : Range α) : Option α :=
  if r.empty then none else r.base[r.b]?

/-- Embeds `Range::back`, segments.h lines 567-570: `CHECK(!empty())` then
`*(end_ - 1)`. -/
def Range.back {α : Type} (r : Range α) : Option α :=
  if r.empty then none else r.base[r.e - 1]?

/-- Embeds `Range::drop`, segments.h lines 572-576: `CHECK_GE(count, 0)` (abort =
`none`), then `Range(count < size() ? begin_ + count : end_, end_)`. -/
def Range.drop {α : Type} (r : Range α) (count : Int) : Option (Range α) :=
  if count < 0 then none
  else if count < r.size then some { r with b := r.b + count.toNat }
  else some { r with b := r.e }

/-- Embeds `Range::take`, segments.h lines 577-581: `CHECK_GE(count, 0)`, then
`Range(begin_, count < size() ? begin_ + count : end_)`. -/
def Range.take {α : Type} (r : Range α) (count : Int) : Option (Range α) :=
  if count < 0 then none
  else if count < r.size then some { r with e := r.b + count.toNat }
  else some r

/-- Embeds `Range::take_last`, segments.h lines 582-586: `CHECK_GE(count, 0)`,
then `drop(max(0, size() - count))`. -/
def Range.take_last {α : Type} (r : Range α) (count : Int) :
    Option (Range α) :=
  if count < 0 then none else r.drop (max 0 (r.size - count))

/-- Embeds `Range::subrange`, segments.h lines 589-591: `drop(index).take(count)`. -/
def Range.subrange {α : Type} (r : Range α) (index count : Int) :
    Option (Range α) :=
  (r.drop index).bind (fun r2 => r2.take count)

/-- The elements a range spans, in order. -/
def Range.toList {α : Type} (r : Range α) : List α :=
  (r.base.take r.e).drop r.b

/-- Well-formedness of a range: begin before end, end within the container.
Every range `Segments` hands out satisfies it. -/
def Range.WF {α : Type} (r : Range α) : Prop :=
  r.b ≤ r.e ∧ r.e ≤ r.base.length

/-- Embeds `Segments::all`, segments.h lines 621-622: `make_range(begin(), end())`. -/
def Segments.all (s : Segments) : Range Segment :=
  { base := s.segments, b := 0, e := s.segments.length }

/-- Modelled from the spec: `Segments::history_segments()` is declared at
segments.h lines 623-624 but defined in `converter/segments.cc` (not among
the repository files here), via the private `history_segments_end()`.  Spec
section 4.3: the half-open range over the history prefix. -/
def Segments.history_segments (s : Segments) : Range Segment :=
  { base := s.segments, b := 0, e := s.history_segments_size }

/-- Modelled from the spec: `Segments::conversion_segments()` is declared at
segments.h lines 625-626 but defined in `converter/segments.cc` (not among
the repository files here).  Spec section 4.3: the half-open range over the
conversion suffix. -/
def Segments.conversion_segments (s : Segments) : Range Segment :=
  { base := s.segments, b := s.history_segments_size,
    e := s.segments.length }

/-- The checked-access contract of a range (spec section 4.3): `operator[]`
returns the i-th element of the range exactly when 0 ≤ i < size and aborts
otherwise; `front`/`back` abort exactly on an empty range and return the
first / last element otherwise. -/
def RangeChecked {α : Type} (r : Range α) : Prop :=
  (∀ i : Int, r.get i = none ↔ ¬(0 ≤ i ∧ i < r.size)) ∧
  (∀ i : Int, 0 ≤ i → i < r.size →
    r.get i = r.toList[i.toNat]? ∧ r.get i ≠ none) ∧
  (r.front = none ↔ r.empty = true) ∧
  (r.back = none ↔ r.empty = true) ∧
  (r.empty = false →
    r.front = r.toList[0]? ∧ r.back = r.toList[r.toList.length - 1]? ∧
    r.front ≠ none ∧ r.back ≠ none)

/-- A concrete segment holding one candidate whose `value` is `"x"`: the
input on which the stray write in `Segment::candidate` is observable. -/
def bug_segment : Segment :=
  { segment_type := .FREE, key := ['x'],
    candidates := [{ Candidate.init with key := ['x'], value := ['x'] }],
    meta_candidates := [] }

/-- A concrete segment with one candidate and one meta candidate. -/
def exSeg1 : Segment :=
  { segment_type := .FREE, key := ['a'],
    candidates := [{ Candidate.init with key := ['a'], value := ['b'] }],
    meta_candidates := [{ Candidate.init with key := ['m'], value := ['n'] }] }

/-- A concrete segment list: two history-typed segments then a free one. -/
def exSegs3 : Segments :=
  { segments := [{ segment_type := .HISTORY, key := ['a'] },
                 { segment_type := .SUBMITTED, key := ['b'] },
                 { segment_type := .FREE, key := ['c'] }] }

/-- A concrete segment list for the history-key boundary behaviour. -/
def exSegs8 : Segments :=
  { segments := [{ segment_type := .HISTORY, key := ['h', 'a'] },
                 { segment_type := .HISTORY, key := ['h', 'b'] },
                 { segment_type := .FREE, key := ['c'] }] }

/-- A concrete three-element range. -/
def exRange10 : Range Nat := { base := [10, 20, 30], b := 0, e := 3 }

theorem takeWhile_length_le {α : Type} (p : α → Bool) (l : List α) :
    (l.takeWhile p).length ≤ l.length := by
  induction l with
  | nil => simp
  | cons a t ih =>
    rw [List.takeWhile_cons]
    by_cases hp : p a = true
    · simp only [hp, if_true, List.length_cons]; omega
    · simp [hp]

theorem takeWhile_getElem {α : Type} (p : α → Bool) (l : List α) (k : Nat)
    (hk : k < (l.takeWhile p).length) :
    ∃ x, l[k]? = some x ∧ p x = true := by
  induction l generalizing k with
  | nil => simp at hk
  | cons a t ih =>
    rw [List.takeWhile_cons] at hk
    by_cases hp : p a = true
    · simp only [hp, if_true, List.length_cons] at hk
      match k with
      | 0 => exact ⟨a, by simp, hp⟩
      | k + 1 =>
        obtain ⟨x, hx, hpx⟩ := ih k (by omega)
        exact ⟨x, by simpa using hx, hpx⟩
    · simp [hp] at hk

theorem takeWhile_stop {α : Type} (p : α → Bool) (l : List α)
    (h : (l.takeWhile p).length < l.length) :
    ∃ x, l[(l.takeWhile p).length]? = some x ∧ p x = false := by
  induction l with
  | nil => simp at h
  | cons a t ih =>
    by_cases hp : p a = true
    · rw [List.takeWhile_cons] at h ⊢
      simp only [hp, if_true, List.length_cons] at h ⊢
      obtain ⟨x, hx, hpx⟩ := ih (by omega)
      exact ⟨x, by simpa using hx, hpx⟩
    · rw [List.takeWhile_cons]
      simp only [hp, if_false, List.length_nil]
      exact ⟨a, by simp, by simpa using hp⟩

/-- C6: `Segment::is_valid_index(i)` returns true exactly when i ≥ 0 and
i < candidates_size(), or i < 0 and −i−1 < meta_candidates_size(). -/
theorem is_valid_index_iff (s : Segment) (i : Int) :
    s.is_valid_index i = true ↔
      ((0 ≤ i ∧ i < (s.candidates_size : Int)) ∨
        (i < 0 ∧ -i - 1 < (s.meta_candidates_size : Int))) := by
  unfold Segment.is_valid_index
  by_cases h : i < 0 <;> simp [h] <;> omega

/-- C7: `functional_key()` is the suffix of `key` past `content_key`, of
size max(0, |key| − |content_key|), empty (never an error) when
`content_key` is at least as long as `key`; and the analogous facts for
`functional_value()`. -/
theorem functional_parts_spec (c : Candidate) :
    c.functional_key = c.key.drop c.content_key.length ∧
    ((c.functional_key).length : Int) =
      max 0 ((c.key.length : Int) - (c.content_key.length : Int)) ∧
    (c.key.length ≤ c.content_key.length → c.functional_key = []) ∧
    c.functional_value = c.value.drop c.content_value.length ∧
    ((c.functional_value).length : Int) =
      max 0 ((c.value.length : Int) - (c.content_value.length : Int)) ∧
    (c.value.length ≤ c.content_value.length → c.functional_value = []) := by
  have hk : c.functional_key = c.key.drop c.content_key.length := by
    unfold Candidate.functional_key
    by_cases h : c.key.length ≤ c.content_key.length
    · simp [h, List.drop_eq_nil_of_le h]
    · simp [h]
  have hv : c.functional_value = c.value.drop c.content_value.length := by
    unfold Candidate.functional_value
    by_cases h : c.value.length ≤ c.content_value.length
    · simp [h, List.drop_eq_nil_of_le h]
    · simp [h]
  refine ⟨hk, ?_, ?_, hv, ?_, ?_⟩
  · rw [hk, List.length_drop]; omega
  · intro h; rw [hk, List.drop_eq_nil_of_le h]
  · rw [hv, List.length_drop]; omega
  · intro h; rw [hv, List.drop_eq_nil_of_le h]

/-- C1: for a valid signed index, `Segment::candidate(i)` with i ≥ 0 returns
(a reference to) the i-th element of the candidate list — in this functional
model, the returned candidate equals `candidates[i]` of the post-call state,
and `mutable_candidate(i)` addresses the same slot — while with i < 0 it
returns the meta candidate at position −i−1 and the segment is untouched. -/
theorem candidate_signed_index_access (s : Segment) (i : Int)
    (h : s.is_valid_index i = true) :
    (0 ≤ i → ∃ c s2, s.candidate i = some (c, s2) ∧
      s2.candidates[i.toNat]? = some c ∧
      s.mutable_candidate i = s.candidates[i.toNat]?) ∧
    (i < 0 → ∃ c, s.candidate i = some (c, s) ∧
      s.meta_candidates[(-i - 1).toNat]? = some c ∧
      s.mutable_candidate i = some c) := by
  unfold Segment.is_valid_index at h
  constructor
  · intro hi
    have hneg : ¬ i < 0 := by omega
    rw [if_neg hneg, decide_eq_true_eq] at h
    unfold Segment.candidates_size at h
    obtain ⟨c, hc⟩ : ∃ c, s.candidates[i.toNat]? = some c :=
      ⟨s.candidates[i.toNat], List.getElem?_eq_getElem h⟩
    refine ⟨{ c with value := kokasuta },
      { s with candidates :=
          s.candidates.set i.toNat ({ c with value := kokasuta }) },
      ?_, ?_, ?_⟩
    · unfold Segment.candidate
      rw [if_neg hneg, hc]
    · simpa using
        List.getElem?_set_self (l := s.candidates) (i := i.toNat)
          (a := { c with value := kokasuta }) h
    · unfold Segment.mutable_candidate
      rw [if_neg hneg]
  · intro hi
    rw [if_pos hi, decide_eq_true_eq] at h
    unfold Segment.meta_candidates_size at h
    obtain ⟨c, hc⟩ : ∃ c, s.meta_candidates[(-i - 1).toNat]? = some c :=
      ⟨s.meta_candidates[(-i - 1).toNat], List.getElem?_eq_getElem h⟩
    refine ⟨c, ?_, hc, ?_⟩
    · unfold Segment.candidate Segment.meta_candidate
      rw [if_pos hi, hc]
      rfl
    · unfold Segment.mutable_candidate
      rw [if_pos hi, hc]

/-- C2 (code bug): evaluating the const getter `Segment::candidate(0)` on a
segment whose only candidate has value `"x"` changes the stored segment
state: the candidate's value field is overwritten with the literal
`"こかすた〜"` by the read accessor (segments.h line 750). -/
theorem candidate_const_getter_mutates :
    (bug_segment.candidate 0).map (fun p => p.2) ≠ some bug_segment ∧
    (bug_segment.candidate 0).map (fun p => p.1.value) = some kokasuta ∧
    (bug_segment.candidates[(0 : Nat)]?).map Candidate.value = some ['x'] ∧
    kokasuta ≠ ['x'] := by
  refine ⟨by decide, by decide, by decide, by decide⟩

/-- C3: `history_segments_size()` is derived as the length of the longest
prefix of history-typed (HISTORY or SUBMITTED) segments — a prefix of
length n ≤ segments_size() is all history-typed exactly when
n ≤ history_segments_size() — conversion_segments_size() is
segments_size() − history_segments_size(), and
`conversion_segment(j) = segment(history_segments_size() + j)` for every j
below conversion_segments_size(). -/
theorem history_partition_derived (s : Segments) (n j : Nat)
    (hn : n ≤ s.segments_size) (_hj : j < s.conversion_segments_size) :
    ((∀ k, k < n →
        ∃ seg, s.segment k = some seg ∧ is_history_segment seg = true) ↔
      n ≤ s.history_segments_size) ∧
    s.conversion_segments_size = s.segments_size - s.history_segments_size ∧
    s.conversion_segment j = s.segment (s.history_segments_size + j) := by
  unfold Segments.segments_size at hn
  refine ⟨⟨?_, ?_⟩, rfl, ?_⟩
  · intro hall
    by_contra hlt
    push_neg at hlt
    unfold Segments.history_segments_size at hlt
    obtain ⟨x, hx, hpx⟩ := takeWhile_stop is_history_segment s.segments
      (by omega)
    obtain ⟨seg, hseg, hhist⟩ := hall
      (s.segments.takeWhile is_history_segment).length (by omega)
    unfold Segments.segment at hseg
    rw [hx] at hseg
    rw [Option.some_inj] at hseg
    rw [hseg] at hpx
    rw [hpx] at hhist
    exact Bool.false_ne_true hhist
  · intro hle k hk
    unfold Segments.history_segments_size at hle
    obtain ⟨x, hx, hpx⟩ :=
      takeWhile_getElem is_history_segment s.segments k (by omega)
    exact ⟨x, hx, hpx⟩
  · unfold Segments.conversion_segment Segments.segment
    rw [Nat.add_comm]

/-- C4: for four lengths each at most 255, `EncodeLengths` packs them into
one code below 2^32 with byte 3 (MSB) = key_len, byte 2 = value_len, byte 1
= content_key_len, byte 0 = content_value_len, and extracting the four
bytes returns the original lengths. -/
theorem encode_decode_lengths_roundtrip (k v ck cv : Nat)
    (hk : k ≤ 255) (hv : v ≤ 255) (hck : ck ≤ 255) (hcv : cv ≤ 255) :
    ∃ code, Candidate.EncodeLengths k v ck cv = some code ∧
      code < 2 ^ 32 ∧
      code / 2 ^ 24 % 256 = k ∧ code / 2 ^ 16 % 256 = v ∧
      code / 2 ^ 8 % 256 = ck ∧ code % 256 = cv ∧
      decodeLengths code = (k, v, ck, cv) := by
  have e8 : (2 : Nat) ^ 8 = 256 := by norm_num
  have e16 : (2 : Nat) ^ 16 = 65536 := by norm_num
  have e24 : (2 : Nat) ^ 24 = 16777216 := by norm_num
  have e32 : (2 : Nat) ^ 32 = 4294967296 := by norm_num
  refine ⟨k * 2 ^ 24 + v * 2 ^ 16 + ck * 2 ^ 8 + cv, ?_, ?_, ?_, ?_, ?_, ?_,
    ?_⟩
  · unfold Candidate.EncodeLengths
    rw [if_pos ⟨hk, hv, hck, hcv⟩]
  · rw [e8, e16, e24, e32]; omega
  · rw [e8, e16, e24]; omega
  · rw [e8, e16, e24]; omega
  · rw [e8, e16, e24]; omega
  · rw [e8, e16, e24]; omega
  · unfold decodeLengths
    rw [e8, e16, e24, Prod.mk.injEq, Prod.mk.injEq, Prod.mk.injEq]
    refine ⟨by omega, by omega, by omega, by omega⟩

/-- C5: `PushBackInnerSegmentBoundary` returns false exactly when one of
the four lengths exceeds 255; on failure the candidate (its
inner_segment_boundary included) is unchanged, and on success exactly the
one packed code is appended, everything else unchanged. -/
theorem push_back_inner_segment_boundary_spec (c : Candidate)
    (k v ck cv : Nat) :
    ((c.PushBackInnerSegmentBoundary k v ck cv).1 = false ↔
      (255 < k ∨ 255 < v ∨ 255 < ck ∨ 255 < cv)) ∧
    ((c.PushBackInnerSegmentBoundary k v ck cv).1 = false →
      (c.PushBackInnerSegmentBoundary k v ck cv).2 = c) ∧
    ((c.PushBackInnerSegmentBoundary k v ck cv).1 = true →
      ∃ code, Candidate.EncodeLengths k v ck cv = some code ∧
        (c.PushBackInnerSegmentBoundary k v ck cv).2 =
          { c with inner_segment_boundary :=
              c.inner_segment_boundary ++ [code] }) := by
  unfold Candidate.PushBackInnerSegmentBoundary
  by_cases h : k ≤ 255 ∧ v ≤ 255 ∧ ck ≤ 255 ∧ cv ≤ 255
  · have he : Candidate.EncodeLengths k v ck cv =
        some (k * 2 ^ 24 + v * 2 ^ 16 + ck * 2 ^ 8 + cv) := by
      unfold Candidate.EncodeLengths
      rw [if_pos h]
    rw [he]
    refine ⟨?_, ?_, ?_⟩
    · have hno : ¬(255 < k ∨ 255 < v ∨ 255 < ck ∨ 255 < cv) := by omega
      simp [hno]
    · intro hfalse
      exact absurd hfalse (by simp)
    · intro _
      exact ⟨_, rfl, rfl⟩
  · have he : Candidate.EncodeLengths k v ck cv = none := by
      unfold Candidate.EncodeLengths
      rw [if_neg h]
    rw [he]
    refine ⟨?_, fun _ => rfl, ?_⟩
    · simp only [true_iff]
      omega
    · intro htrue
      exact absurd htrue (by simp)

/-- C8: `history_key(-1)` concatenates the keys of all history segments and
equals `history_key(history_segments_size())`, and `history_key(n)` for any
n above history_segments_size() also equals `history_key(-1)`. -/
theorem history_key_clamp (s : Segments) (n : Int)
    (hn : (s.history_segments_size : Int) < n) :
    s.history_key (-1) = s.history_key (s.history_segments_size : Int) ∧
    s.history_key n = s.history_key (-1) ∧
    s.history_key (-1) =
      ((s.segments.take s.history_segments_size).map Segment.key).flatten := by
  have h0 : (0 : Int) ≤ (s.history_segments_size : Int) :=
    Int.natCast_nonneg _
  unfold Segments.history_key
  have hneq : ¬((s.history_segments_size : Int) = -1) := by omega
  have hneqn : ¬(n = -1) := by omega
  have htn : s.history_segments_size ≤ n.toNat := by omega
  simp only [if_pos rfl, if_true, if_neg hneq, if_neg hneqn,
    Int.toNat_natCast, Nat.min_self, Nat.min_eq_right htn, Nat.sub_self,
    List.drop_zero]
  exact ⟨trivial, trivial, trivial⟩

theorem rangeChecked_of_wf {α : Type} (r : Range α) (hw : r.WF) :
    RangeChecked r := by
  obtain ⟨hbe, hel⟩ := hw
  have htl : r.toList.length = r.e - r.b := by
    unfold Range.toList
    rw [List.length_drop, List.length_take]
    omega
  have hsz : r.size = (r.e : Int) - (r.b : Int) := rfl
  have hget : ∀ i : Int, 0 ≤ i → i < r.size →
      r.get i = r.toList[i.toNat]? ∧ r.get i ≠ none := by
    intro i h0 hs
    have hidx : r.b + i.toNat < r.e := by
      rw [hsz] at hs
      omega
    have hbase : r.base[r.b + i.toNat]? = some r.base[r.b + i.toNat] :=
      List.getElem?_eq_getElem (by omega)
    have hcond : 0 ≤ i ∧ i < r.size := ⟨h0, hs⟩
    constructor
    · unfold Range.get Range.toList
      rw [if_pos hcond, List.getElem?_drop, List.getElem?_take, if_pos hidx]
    · unfold Range.get
      rw [if_pos hcond, hbase]
      exact Option.some_ne_none _
  refine ⟨?_, hget, ?_, ?_, ?_⟩
  · intro i
    constructor
    · intro hnone hcond
      exact absurd hnone (hget i hcond.1 hcond.2).2
    · intro hcond
      unfold Range.get
      rw [if_neg hcond]
  · unfold Range.front Range.empty
    by_cases he : r.b = r.e
    · rw [if_pos (by simpa using he)]
      simp [he]
    · rw [if_neg (by simpa using he)]
      have : r.base[r.b]? = some r.base[r.b] :=
        List.getElem?_eq_getElem (by omega)
      simp [this, he]
  · unfold Range.back Range.empty
    by_cases he : r.b = r.e
    · rw [if_pos (by simpa using he)]
      simp [he]
    · rw [if_neg (by simpa using he)]
      have : r.base[r.e - 1]? = some r.base[r.e - 1] :=
        List.getElem?_eq_getElem (by omega)
      simp [this, he]
  · intro hne
    unfold Range.empty at hne
    have hbne : ¬ r.b = r.e := by simpa using hne
    have hblt : r.b < r.e := by omega
    have hfr : r.front = r.toList[0]? := by
      unfold Range.front Range.empty Range.toList
      rw [if_neg (by simpa using hbne), List.getElem?_drop,
        List.getElem?_take, if_pos (by omega), Nat.add_zero]
    have hbk : r.back = r.toList[r.toList.length - 1]? := by
      unfold Range.back Range.empty
      rw [if_neg (by simpa using hbne), htl]
      unfold Range.toList
      rw [List.getElem?_drop, List.getElem?_take, if_pos (by omega)]
      congr 1
      omega
    refine ⟨hfr, hbk, ?_, ?_⟩
    · rw [hfr]
      have h0 : (0 : Nat) < r.toList.length := by omega
      rw [List.getElem?_eq_getElem h0]
      exact Option.some_ne_none _
    · rw [hbk]
      have h1 : r.toList.length - 1 < r.toList.length := by omega
      rw [List.getElem?_eq_getElem h1]
      exact Option.some_ne_none _

/-- C9: the ranges returned by `all()`, `history_segments()` and
`conversion_segments()` have checked access: `operator[]` returns the i-th
element of the range exactly when 0 ≤ i < size and aborts otherwise, and
`front`/`back` abort exactly on an empty range. -/
theorem segments_range_checked_access (s : Segments) :
    RangeChecked (Segments.all s) ∧ RangeChecked s.history_segments ∧
      RangeChecked s.conversion_segments := by
  have hh : s.history_segments_size ≤ s.segments.length :=
    takeWhile_length_le is_history_segment s.segments
  exact ⟨rangeChecked_of_wf _ ⟨Nat.zero_le _, le_refl _⟩,
    rangeChecked_of_wf _ ⟨Nat.zero_le _, hh⟩,
    rangeChecked_of_wf _ ⟨hh, le_refl _⟩⟩

/-- C10: for a non-negative count, `drop`, `take` and `take_last` are total
and clamp — `drop(n)` with n ≥ size is the empty range, `take(n)` with
n ≥ size is the range itself, `take_last(n)` equals
`drop(max(0, size − n))` — while a negative count aborts all three. -/
theorem range_drop_take_clamp {α : Type} (r : Range α) (n : Int)
    (hn : 0 ≤ n) :
    (r.drop n).isSome = true ∧ (r.take n).isSome = true ∧
    (r.take_last n).isSome = true ∧
    (r.size ≤ n → r.drop n = some { base := r.base, b := r.e, e := r.e }) ∧
    (r.size ≤ n → r.take n = some r) ∧
    r.take_last n = r.drop (max 0 (r.size - n)) ∧
    (∀ m : Int, m < 0 →
      r.drop m = none ∧ r.take m = none ∧ r.take_last m = none) := by
  have hnn : ¬ n < 0 := by omega
  have hdrop : ∀ p : Int, 0 ≤ p → (r.drop p).isSome = true := by
    intro p hp
    have hpn : ¬ p < 0 := by omega
    unfold Range.drop
    rw [if_neg hpn]
    by_cases hlt : p < r.size
    · rw [if_pos hlt]; rfl
    · rw [if_neg hlt]; rfl
  refine ⟨hdrop n hn, ?_, ?_, ?_, ?_, ?_, ?_⟩
  · unfold Range.take
    rw [if_neg hnn]
    by_cases hlt : n < r.size
    · rw [if_pos hlt]; rfl
    · rw [if_neg hlt]; rfl
  · unfold Range.take_last
    rw [if_neg hnn]
    exact hdrop _ (le_max_left 0 (r.size - n))
  · intro hge
    have hlt : ¬ n < r.size := by omega
    unfold Range.drop
    rw [if_neg hnn, if_neg hlt]
  · intro hge
    have hlt : ¬ n < r.size := by omega
    unfold Range.take
    rw [if_neg hnn, if_neg hlt]
  · unfold Range.take_last
    rw [if_neg hnn]
  · intro m hm
    unfold Range.drop Range.take Range.take_last
    rw [if_pos hm, if_pos hm, if_pos hm]
    exact ⟨rfl, rfl, rfl⟩

/-- Witness for C1 at the concrete segment `exSeg1` and index −1. -/
theorem candidate_signed_index_access_witness :
    exSeg1.is_valid_index (-1) = true ∧
    ((0 ≤ (-1 : Int) → ∃ c s2, exSeg1.candidate (-1) = some (c, s2) ∧
        s2.candidates[(-1 : Int).toNat]? = some c ∧
        exSeg1.mutable_candidate (-1) =
          exSeg1.candidates[(-1 : Int).toNat]?) ∧
      ((-1 : Int) < 0 → ∃ c, exSeg1.candidate (-1) = some (c, exSeg1) ∧
        exSeg1.meta_candidates[(-(-1 : Int) - 1).toNat]? = some c ∧
        exSeg1.mutable_candidate (-1) = some c)) :=
  ⟨by decide, candidate_signed_index_access exSeg1 (-1) (by decide)⟩

/-- Witness for C3 at the concrete list `exSegs3`, n = 2 and j = 0. -/
theorem history_partition_derived_witness :
    (2 ≤ exSegs3.segments_size ∧ 0 < exSegs3.conversion_segments_size) ∧
    (((∀ k, k < 2 → ∃ seg, exSegs3.segment k = some seg ∧
          is_history_segment seg = true) ↔
        2 ≤ exSegs3.history_segments_size) ∧
      exSegs3.conversion_segments_size =
        exSegs3.segments_size - exSegs3.history_segments_size ∧
      exSegs3.conversion_segment 0 =
        exSegs3.segment (exSegs3.history_segments_size + 0)) :=
  ⟨⟨by decide, by decide⟩,
    history_partition_derived exSegs3 2 0 (by decide) (by decide)⟩

/-- Witness for C4 at the concrete lengths 1, 2, 3, 4. -/
theorem encode_decode_lengths_roundtrip_witness :
    ((1 : Nat) ≤ 255 ∧ (2 : Nat) ≤ 255 ∧ (3 : Nat) ≤ 255 ∧
      (4 : Nat) ≤ 255) ∧
    (∃ code, Candidate.EncodeLengths 1 2 3 4 = some code ∧
      code < 2 ^ 32 ∧
      code / 2 ^ 24 % 256 = 1 ∧ code / 2 ^ 16 % 256 = 2 ∧
      code / 2 ^ 8 % 256 = 3 ∧ code % 256 = 4 ∧
      decodeLengths code = (1, 2, 3, 4)) :=
  ⟨⟨by decide, by decide, by decide, by decide⟩,
    encode_decode_lengths_roundtrip 1 2 3 4 (by decide) (by decide)
      (by decide) (by decide)⟩

/-- Witness for C8 at the concrete list `exSegs8` and n = 5. -/
theorem history_key_clamp_witness :
    (exSegs8.history_segments_size : Int) < 5 ∧
    (exSegs8.history_key (-1) =
        exSegs8.history_key (exSegs8.history_segments_size : Int) ∧
      exSegs8.history_key 5 = exSegs8.history_key (-1) ∧
      exSegs8.history_key (-1) =
        ((exSegs8.segments.take exSegs8.history_segments_size).map
            Segment.key).flatten) :=
  ⟨by decide, history_key_clamp exSegs8 5 (by decide)⟩

/-- Witness for C10 at the concrete range `exRange10` and count 5. -/
theorem range_drop_take_clamp_witness :
    ((0 : Int) ≤ 5) ∧
    ((exRange10.drop 5).isSome = true ∧ (exRange10.take 5).isSome = true ∧
      (exRange10.take_last 5).isSome = true ∧
      (exRange10.size ≤ 5 → exRange10.drop 5 =
        some { base := exRange10.base, b := exRange10.e,
               e := exRange10.e }) ∧
      (exRange10.size ≤ 5 → exRange10.take 5 = some exRange10) ∧
      exRange10.take_last 5 = exRange10.drop (max 0 (exRange10.size - 5)) ∧
      (∀ m : Int, m < 0 → exRange10.drop m = none ∧
        exRange10.take m = none ∧ exRange10.take_last m = none)) :=
  ⟨by decide, range_drop_take_clamp exRange10 5 (by decide)⟩

end Mozc
